import Mathlib

/-!
Verification of the path-pattern engine in `src/modules/PatternUtils.js`
(pattern matcher and formatter of a route library).

The shallow embedding follows the source file:

* `matchPatternCore` embeds lines 61-86 of `matchPattern`: the behaviour after
  the external regexp automaton has run.  The automaton itself (the external
  `path-to-regexp` capability) is a parameter `exec : String -> Option (String
  × List (Option String))` returning the matched text and the captured groups
  (`none` = an unmatched capture, i.e. JS `undefined`).
* `getParamsCore` embeds `getParams` (lines 92-106): the JS object built by
  the `forEach` loop is represented as the assignment list `zipParams`, read
  back by `lookupParams` (last assignment wins, like JS property assignment).
* `formatStep`/`formatLoop`/`formatTokens` embed `formatPattern`
  (lines 112-201) over its token list.  The loop variable `i`, the paren
  depth `parenCount` (an `Int`: the JS counter may go negative on an
  unbalanced close paren), the output `pathname`, the `splatIndex` and the
  `parenHistory` array form `FmtState`.  JS array writes at negative indices
  create non-element properties that are never read back into the output;
  `jsSetAt`/`jsAppendAt` model them as dropped writes.  The JS `for` loop is
  modelled with fuel because the elision jump (lines 162-179) can move `i`
  backwards, so the source loop is not structurally terminating.
* `compilePatternSt` embeds the pattern cache (lines 25-32) as explicit
  state passing; the external compiler is a parameter.

External primitives that the repository only calls (`encodeURI`,
`encodeURIComponent`, `decodeURIComponent`, and the regexp automatons used in
concrete examples) are modelled from the spec and carry `Modelled from the
spec:` doc comments.
-/

namespace PatternUtils

/-! ## String helpers (JS string primitives over the character data) -/

/-- Model of the JS `String.prototype.substr(n)` used on line 67: drop the
first `n` characters. -/
def strDrop (s : String) (n : Nat) : String := ⟨s.data.drop n⟩

/-- Model of the test `matchedPath.charAt(matchedPath.length - 1) !== '/'`
on line 72: does the string end with the path separator?  (`charAt` of the
empty string is the empty string, which is not `'/'`.) -/
def endsWithSlash (s : String) : Bool := s.data.getLast? == some '/'

/-- Model of `String.prototype.startsWith`-style prefix test used by the
spec-modelled literal automaton. -/
def strIsPrefixOf (p s : String) : Bool := p.data.isPrefixOf s.data

/-! ## URI escaping primitives (external collaborators)

The spec (section 1) excludes the URI percent-encoding primitives from the
core and treats them as external encode/decode functions, so they are
modelled here for the single-byte (ASCII) alphabet all examples use. -/

/-- Is `c` an ASCII letter or digit? -/
def isAsciiAlphaNum (c : Char) : Bool :=
  ('A' ≤ c && c ≤ 'Z') || ('a' ≤ c && c ≤ 'z') || ('0' ≤ c && c ≤ '9')

/-- Characters `encodeURIComponent` leaves unescaped:
letters, digits and `- _ . ! ~ * ' ( )`. -/
def componentUnreserved (c : Char) : Bool :=
  isAsciiAlphaNum c || c = '-' || c = '_' || c = '.' || c = '!' ||
    c = '~' || c = '*' || c = Char.ofNat 39 || c = '(' || c = ')'

/-- The further characters `encodeURI` leaves unescaped:
`; / ? : @ & = + $ , #`. -/
def uriReservedExtra (c : Char) : Bool :=
  c = ';' || c = '/' || c = '?' || c = ':' || c = '@' || c = '&' ||
    c = '=' || c = '+' || c = '$' || c = ',' || c = '#'

/-- Upper-case hex digit of a value below 16. -/
def hexDigitChar (n : Nat) : Char :=
  if n < 10 then Char.ofNat (48 + n) else Char.ofNat (55 + n)

/-- Percent-escape of one (single-byte) character. -/
def percentEncodeChar (c : Char) : List Char :=
  ['%', hexDigitChar (c.toNat / 16 % 16), hexDigitChar (c.toNat % 16)]

/-- Escape every character not satisfying `keep`. -/
def encodeWith (keep : Char → Bool) (s : String) : String :=
  ⟨s.data.foldr (fun c acc => if keep c then c :: acc else percentEncodeChar c ++ acc) []⟩

/-- Modelled from the spec: the external component-level escaping primitive
(JS `encodeURIComponent`, applied to named parameter values on lines 183 and
185), on single-byte characters. -/
def encodeURIComponentM (s : String) : String := encodeWith componentUnreserved s

/-- Modelled from the spec: the external URI-level escaping primitive
(JS `encodeURI`, applied to splat values on line 132; it preserves `/` and
the other reserved characters), on single-byte characters. -/
def encodeURIM (s : String) : String :=
  encodeWith (fun c => componentUnreserved c || uriReservedExtra c) s

/-- Hex digit value of a character, if it is one. -/
def hexVal (c : Char) : Option Nat :=
  if '0' ≤ c ∧ c ≤ '9' then some (c.toNat - 48)
  else if 'A' ≤ c ∧ c ≤ 'F' then some (c.toNat - 55)
  else if 'a' ≤ c ∧ c ≤ 'f' then some (c.toNat - 87)
  else none

/-- Decode `%XX` escape sequences in a character list; characters outside
well-formed escapes are passed through. -/
def percentDecodeList : List Char → List Char
  | [] => []
  | '%' :: a :: b :: rest =>
    match hexVal a, hexVal b with
    | some x, some y => Char.ofNat (16 * x + y) :: percentDecodeList rest
    | _, _ => '%' :: percentDecodeList (a :: b :: rest)
  | c :: rest => c :: percentDecodeList rest

/-- Modelled from the spec: the external decoding primitive (JS
`decodeURIComponent`, applied to captured values on line 84), total model
defined on well-formed escape sequences over single-byte characters. -/
def decodeURIComponentM (s : String) : String := ⟨percentDecodeList s.data⟩

/-! ## Data model -/

/-- Result of `matchPattern` (lines 81-85 of the source). -/
structure MatchResult where
  remainingPathname : String
  paramNames : List String
  paramValues : List (Option String)
  deriving Repr, DecidableEq

/-- The `params.splat` entry of a `ParamsMap`: either a single string
(reused for every splat) or an ordered sequence (consumed left to right),
following the `Array.isArray` dispatch on line 123. -/
inductive SplatArg where
  | str (s : String)
  | arr (xs : List String)
  deriving Repr, DecidableEq

/-- A `ParamsMap`: named parameter lookup (JS property access
`params[paramName]`, `none` = absent/undefined) plus the `splat` entry. -/
structure Params where
  named : String → Option String
  splat : Option SplatArg

/-- The empty params map (`formatPattern(pattern)` with no params). -/
def noParams : Params := ⟨fun _ => none, none⟩

/-! ## Matcher core (lines 61-86) -/

/-- Line 84: `match.slice(1).map(v => v && decodeURIComponent(v))`.
JS `&&` short-circuits on the falsy values `undefined` and `''`, so an
absent capture stays absent and an empty capture stays the empty string
(undecoded); only nonempty captures are decoded. -/
def decodeCapture : Option String → Option String
  | none => none
  | some s => if s = "" then some "" else some (decodeURIComponentM s)

/-- Lines 61-86 of `matchPattern`, after pattern compilation: run the
external automaton `exec`, enforce the segment-boundary rule on a partial
match, and decode the captures. -/
def matchPatternCore (exec : String → Option (String × List (Option String)))
    (paramNames : List String) (pathname : String) : Option MatchResult :=
  match exec pathname with
  | none => none
  | some (matchedPath, captures) =>
    let remainingPathname := strDrop pathname matchedPath.length
    if remainingPathname ≠ "" then
      if endsWithSlash matchedPath = false then none
      else
        some { remainingPathname := "/" ++ remainingPathname
               paramNames := paramNames
               paramValues := captures.map decodeCapture }
    else
      some { remainingPathname := remainingPathname
             paramNames := paramNames
             paramValues := captures.map decodeCapture }

/-- The assignment list built by the `forEach` loop of `getParams`
(lines 101-103): one assignment per param name, in order; an index beyond
the values list assigns `undefined`, modelled by flattening the double
option. -/
def zipParams : List String → List (Option String) → List (String × Option String)
  | [], _ => []
  | n :: ns, vals => (n, vals.head?.bind id) :: zipParams ns vals.tail

/-- Reading a JS object built from an assignment list: the last assignment
to a key wins. -/
def lookupParams (l : List (String × Option String)) (n : String) : Option String :=
  (l.reverse.find? (fun q => q.1 == n)).bind (fun q => q.2)

/-- `getParams` (lines 92-106) over the abstract automaton: absent on no
match, otherwise the params object, represented by its assignment list. -/
def getParamsCore (exec : String → Option (String × List (Option String)))
    (paramNames : List String) (pathname : String) :
    Option (List (String × Option String)) :=
  (matchPatternCore exec paramNames pathname).map
    (fun r => zipParams r.paramNames r.paramValues)

/-- A params object (from `getParams`) used as the `params` argument of
`formatPattern`: named lookup is property access, and `params.splat` is the
property named `splat` (always a single string when it comes from a match). -/
def paramsOfAssoc (l : List (String × Option String)) : Params :=
  { named := lookupParams l, splat := (lookupParams l "splat").map SplatArg.str }

/-! ## Formatter (lines 112-201) -/

/-- The failures `formatPattern` can raise via `invariant`:
a missing splat (line 125, carrying the splat index after the array
post-increment), a missing named parameter (line 152), a missing end paren
during the elision scan (line 173, carrying the joined token segment), and
an unterminated group at the end of the scan (line 195). -/
inductive FormatError where
  | missingSplat (idx : Nat)
  | missingParam (name : String)
  | missingEndParenSeg (seg : String)
  | missingEndParen
  deriving Repr, DecidableEq

/-- Equality of `Except` results is decidable when both components are;
used to evaluate the formatter on concrete inputs. -/
instance exceptDecEq {ε α : Type} [DecidableEq ε] [DecidableEq α] :
    DecidableEq (Except ε α) := fun x y =>
  match x, y with
  | .ok a, .ok b =>
    if h : a = b then isTrue (by rw [h])
    else isFalse (by intro hc; injection hc with hc; exact h hc)
  | .error a, .error b =>
    if h : a = b then isTrue (by rw [h])
    else isFalse (by intro hc; injection hc with hc; exact h hc)
  | .ok _, .error _ => isFalse (by intro hc; cases hc)
  | .error _, .ok _ => isFalse (by intro hc; cases hc)

/-- The mutable state of the `formatPattern` loop (line 116 and the loop
counter of line 119). -/
structure FmtState where
  i : Nat
  parenCount : Int
  pathname : String
  splatIndex : Nat
  parenHistory : List String
  deriving Repr, DecidableEq

/-- Line 123: resolve the next splat value.  An array consumes
`splat[splatIndex++]`; a scalar is reused without touching the index; an
absent `splat` yields `undefined`. -/
def resolveSplat : Option SplatArg → Nat → Option String × Nat
  | some (.arr xs), k => (xs.get? k, k + 1)
  | some (.str s), k => (some s, k)
  | none, k => (none, k)

/-- JS array element assignment `l[i] = v` (line 134 and line 160).
A negative index creates a non-element property, which the formatter never
reads back into its output, so the write is dropped; `i = length` appends.
`parenCount ≤ parenHistory.length` throughout the loop, so larger indices
do not occur. -/
def jsSetAt (l : List String) (i : Int) (v : String) : List String :=
  if i < 0 then l
  else if i.toNat < l.length then l.set i.toNat v
  else if i.toNat = l.length then l ++ [v]
  else l

/-- JS compound assignment `l[i] += v` (lines 141, 183, 189): read the
element (or drop the write when the index is a negative non-element
property, see `jsSetAt`). -/
def jsAppendAt (l : List String) (i : Int) (v : String) : List String :=
  if i < 0 then l
  else if i.toNat < l.length then l.set i.toNat (l.getD i.toNat "" ++ v)
  else l

/-- JS `Array.prototype.pop` (line 137): removes and returns the last
element, `undefined` on an empty array. -/
def jsPop (l : List String) : Option String × List String :=
  match l.getLast? with
  | some v => (some v, l.dropLast)
  | none => (none, l)

/-- One iteration of the `formatPattern` loop body (lines 120-192) at
`st.i`.  Token classification follows the source's chain of comparisons on
the token string (`'*'`, `'**'`, `'('`, `')'`, `'\\('`, `'\\)'`, a leading
`':'`, otherwise a literal). -/
def formatStep (tokens : List String) (params : Params) (st : FmtState) :
    Except FormatError FmtState :=
  let token := tokens.getD st.i ""
  let d := token.data
  if d = ['*'] ∨ d = ['*', '*'] then
    -- lines 122-132
    match resolveSplat params.splat st.splatIndex with
    | (some v, j) =>
      .ok { st with i := st.i + 1, splatIndex := j,
                    pathname := st.pathname ++ encodeURIM v }
    | (none, j) =>
      if 0 < st.parenCount then .ok { st with i := st.i + 1, splatIndex := j }
      else .error (.missingSplat j)
  else if d = ['('] then
    -- lines 133-135
    .ok { st with i := st.i + 1, parenCount := st.parenCount + 1,
                  parenHistory := jsSetAt st.parenHistory st.parenCount "" }
  else if d = [')'] then
    -- lines 136-143
    let popped := jsPop st.parenHistory
    let pc := st.parenCount - 1
    let parenText := match popped.1 with | some s => s | none => "undefined"
    if pc ≠ 0 then
      .ok { st with i := st.i + 1, parenCount := pc,
                    parenHistory := jsAppendAt popped.2 (pc - 1) parenText }
    else
      .ok { st with i := st.i + 1, parenCount := pc, parenHistory := popped.2,
                    pathname := st.pathname ++ parenText }
  else if d = ['\\', '('] then
    -- lines 144-145
    .ok { st with i := st.i + 1, pathname := st.pathname ++ "(" }
  else if d = ['\\', ')'] then
    -- lines 146-147
    .ok { st with i := st.i + 1, pathname := st.pathname ++ ")" }
  else if d.head? = some ':' then
    -- lines 148-185
    let paramName : String := ⟨d.tail⟩
    match params.named paramName with
    | none =>
      if 0 < st.parenCount then
        -- lines 158-180: elide the optional group
        let hist := jsSetAt st.parenHistory (st.parenCount - 1) ""
        let curTokenIdx := tokens.findIdx (fun s => s == token)
        let subset := tokens.drop curTokenIdx
        match subset.findIdx? (fun s => s == ")") with
        | some k =>
          if 0 < k then .ok { st with i := curTokenIdx + k, parenHistory := hist }
          else .error (.missingEndParenSeg (String.join subset))
        | none => .error (.missingEndParenSeg (String.join subset))
      else .error (.missingParam paramName)
    | some v =>
      if st.parenCount ≠ 0 then
        .ok { st with i := st.i + 1,
                      parenHistory := jsAppendAt st.parenHistory (st.parenCount - 1)
                        (encodeURIComponentM v) }
      else
        .ok { st with i := st.i + 1, pathname := st.pathname ++ encodeURIComponentM v }
  else
    -- lines 187-192: literal text
    if st.parenCount ≠ 0 then
      .ok { st with i := st.i + 1,
                    parenHistory := jsAppendAt st.parenHistory (st.parenCount - 1) token }
    else
      .ok { st with i := st.i + 1, pathname := st.pathname ++ token }

/-- `pathname.replace(/\/+/g, '/')` (line 200) on the character data:
collapse every run of path separators to one. -/
def collapseList : List Char → List Char
  | '/' :: '/' :: rest => collapseList ('/' :: rest)
  | c :: rest => c :: collapseList rest
  | [] => []

/-- Separator collapsing of the final pathname (line 200). -/
def collapseSlashes (s : String) : String := ⟨collapseList s.data⟩

/-- The `for` loop of lines 119-193 followed by the final checks
(lines 195-200), driven by fuel: the elision jump can move `i` backwards,
and on such inputs the JS loop does not terminate, modelled by `none`. -/
def formatLoop (tokens : List String) (params : Params) :
    Nat → FmtState → Option (Except FormatError String)
  | 0, _ => none
  | fuel + 1, st =>
    if st.i < tokens.length then
      match formatStep tokens params st with
      | .error e => some (.error e)
      | .ok st' => formatLoop tokens params fuel st'
    else if 0 < st.parenCount then some (.error .missingEndParen)
    else some (.ok (collapseSlashes st.pathname))

/-- `formatPattern` over the compiled token list: run the loop from the
initial state of line 116 with fuel that covers every terminating run of
the claims below. -/
def formatTokens (tokens : List String) (params : Params) :
    Option (Except FormatError String) :=
  formatLoop tokens params (tokens.length * tokens.length + tokens.length + 1)
    ⟨0, 0, "", 0, []⟩

/-! ## Reference rendering of paren-free token lists

`renderSimple` is the straight-line reading of the loop of lines 119-193
for token lists that contain no group-boundary tokens: splat values resolve
left to right through `resolveSplat`, named parameters and literals append
in order, and a missing value at zero depth is the corresponding error.
`formatLoop_simple` below proves the formatter equal to it. -/

/-- Expected output of `formatPattern` on a token list without `(` or `)`
tokens, threading the splat index left to right. -/
def renderSimple (params : Params) : List String → Nat → Except FormatError String
  | [], _ => .ok ""
  | t :: ts, k =>
    let d := t.data
    if d = ['*'] ∨ d = ['*', '*'] then
      match resolveSplat params.splat k with
      | (some v, j) => (renderSimple params ts j).map (fun r => encodeURIM v ++ r)
      | (none, j) => .error (.missingSplat j)
    else if d = ['('] then .error .missingEndParen
    else if d = [')'] then .error .missingEndParen
    else if d = ['\\', '('] then (renderSimple params ts k).map (fun r => "(" ++ r)
    else if d = ['\\', ')'] then (renderSimple params ts k).map (fun r => ")" ++ r)
    else if d.head? = some ':' then
      match params.named ⟨d.tail⟩ with
      | some v => (renderSimple params ts k).map (fun r => encodeURIComponentM v ++ r)
      | none => .error (.missingParam ⟨d.tail⟩)
    else (renderSimple params ts k).map (fun r => t ++ r)

/-! ## Spec-modelled automatons for concrete patterns

The regexp automaton is an external collaborator (spec, section 1); the
instances below realise it for the pattern shapes the claims test. -/

/-- Modelled from the spec: the external automaton compiled from a pattern
consisting of a single literal atom — matches the literal verbatim as a
prefix of the pathname, with no capturing constructs. -/
def litExec (lit : String) : String → Option (String × List (Option String)) :=
  fun pathname =>
    if strIsPrefixOf lit pathname then some (lit, []) else none

/-- Modelled from the spec: the external automaton compiled from the
pattern `/a/**` — the literal prefix followed by a greedy splat capturing
the whole remainder (possibly empty), consuming the entire pathname. -/
def splatExecA : String → Option (String × List (Option String)) :=
  fun pathname =>
    if strIsPrefixOf "/a/" pathname then some (pathname, [some (strDrop pathname 3)])
    else none

/-- A token is a literal or a named-param atom: none of the splat,
group-boundary or escaped-paren tokens. -/
def simpleTok (t : String) : Prop :=
  t.data ≠ ['*'] ∧ t.data ≠ ['*', '*'] ∧ t.data ≠ ['('] ∧ t.data ≠ [')'] ∧
    t.data ≠ ['\\', '('] ∧ t.data ≠ ['\\', ')']

instance (t : String) : Decidable (simpleTok t) := by
  unfold simpleTok; infer_instance

/-- The ordered parameter names of a literal/named-param token list (the
`paramNames` of the compiled pattern, spec section 3). -/
def paramNamesOf (toks : List String) : List String :=
  toks.filterMap (fun t =>
    if t.data.head? = some ':' then some ((⟨t.data.tail⟩ : String)) else none)

/-- Modelled from the spec: the matching semantics of the automaton
compiled from a literal/named-param token list (section 4.1): literal
atoms match verbatim, a named param captures a maximal nonempty run of
non-separator characters, and the whole pathname must be consumed
(end-anchored automaton). -/
def segMatchL : List String → List Char → Option (List (Option String))
  | [], cs => if cs = [] then some [] else none
  | t :: ts, cs =>
    if t.data.head? = some ':' then
      let cap := cs.takeWhile (fun c => c ≠ '/')
      if cap = [] then none
      else (segMatchL ts (cs.dropWhile (fun c => c ≠ '/'))).map
        (fun r => some (⟨cap⟩ : String) :: r)
    else if t.data.isPrefixOf cs then segMatchL ts (cs.drop t.data.length) else none

/-- The automaton of `segMatchL` in the interface `matchPatternCore`
expects: the matched text is the whole pathname. -/
def segExec (toks : List String) : String → Option (String × List (Option String)) :=
  fun pathname => (segMatchL toks pathname.data).map (fun caps => (pathname, caps))

/-- The (param name, captured value) pairs of a token list and its capture
list, in token order; used to state which lookups `getParams` provides to
`formatPattern`. -/
def pcPairs : List String → List (Option String) → List (String × Option String)
  | [], _ => []
  | t :: ts, caps =>
    if t.data.head? = some ':' then
      match caps with
      | c :: cs => ((⟨t.data.tail⟩ : String), c) :: pcPairs ts cs
      | [] => []
    else pcPairs ts caps

/-! ## Concrete inputs used by witnesses and counterexamples -/

/-- Params map with `a` bound to the empty string. -/
def emptyAParams : Params := ⟨fun n => if n = "a" then some "" else none, none⟩

/-- Params map with only a scalar splat value. -/
def scalarSplatParams : Params := ⟨fun _ => none, some (.str "x")⟩

/-- Params map with a splat sequence of two values. -/
def arrSplatParams : Params := ⟨fun _ => none, some (.arr ["a", "b"])⟩

/-! ## Pattern cache (lines 25-32) -/

/-- A compiled pattern as the claims observe it: the original string and the
structural fields `paramNames` and `tokens` (the `regexp` field is the
external automaton). -/
structure CompiledPattern where
  pattern : String
  paramNames : List String
  tokens : List String
  deriving Repr, DecidableEq

/-- `compilePattern` (lines 27-32) with the process-wide cache as explicit
state and the external compiler `_compilePattern` as a parameter: look up by
exact string key; on a miss, compile and store before returning. -/
def compilePatternSt (compile : String → CompiledPattern) (pattern : String)
    (cache : List (String × CompiledPattern)) :
    CompiledPattern × List (String × CompiledPattern) :=
  match (cache.find? (fun e => e.1 == pattern)).map (fun e => e.2) with
  | some c => (c, cache)
  | none => (compile pattern, (pattern, compile pattern) :: cache)

/-! ## Helper lemmas -/

theorem strmk_append (a b : List Char) : (⟨a ++ b⟩ : String) = ⟨a⟩ ++ ⟨b⟩ := rfl

theorem str_append_empty (s : String) : s ++ "" = s := by
  cases s with
  | mk d => show String.mk (d ++ []) = ⟨d⟩; simp

theorem str_empty_append (s : String) : "" ++ s = s := by
  cases s with
  | mk d => show String.mk ([] ++ d) = ⟨d⟩; simp

theorem strmk_ne_empty (t : List Char) (h : t ≠ []) : (⟨t⟩ : String) ≠ "" := by
  intro hc
  exact h (by simpa using congrArg String.data hc)

theorem strDrop_length (s : String) : strDrop s s.length = "" := by
  cases s with
  | mk d => show String.mk (d.drop d.length) = "" ; simp

theorem list_set_getD_self (l : List String) (n : Nat) : l.set n (l.getD n "") = l := by
  apply List.ext_getElem
  · simp
  · intro i h1 h2
    rw [List.getElem_set]
    split
    · next heq => subst heq; simp [List.getElem?_eq_getElem h2]
    · rfl

theorem jsAppendAt_empty_val (l : List String) (i : Int) : jsAppendAt l i "" = l := by
  unfold jsAppendAt
  split
  · rfl
  · split
    · rw [str_append_empty]; exact list_set_getD_self l i.toNat
    · rfl

theorem getD_of_drop_cons (l : List String) (i : Nat) (t : String) (rest : List String)
    (h : l.drop i = t :: rest) : l.getD i "" = t := by
  have hi : i < l.length := by
    by_contra hn
    rw [List.drop_eq_nil_of_le (Nat.le_of_not_lt hn)] at h
    cases h
  have := List.drop_eq_getElem_cons hi
  rw [this] at h
  injection h with h1 _
  simp [List.getD, List.getElem?_eq_getElem hi, h1]

/-! ## C9: the compile cache -/

/-- C9: `compilePattern` is idempotent and deterministic — for every
external compiler, pattern string and starting cache, the second call
returns exactly the entry the first call returned and stored, and leaves
the cache unchanged. -/
theorem compilePattern_idempotent (compile : String → CompiledPattern) (p : String)
    (cache : List (String × CompiledPattern)) :
    (compilePatternSt compile p (compilePatternSt compile p cache).2).1 =
      (compilePatternSt compile p cache).1 ∧
    (compilePatternSt compile p (compilePatternSt compile p cache).2).2 =
      (compilePatternSt compile p cache).2 := by
  unfold compilePatternSt
  cases h : cache.find? (fun e => e.1 == p) with
  | none => simp [h, List.find?]
  | some e => simp [h]

/-! ## C8: the end-of-scan depth check -/

/-- C8 (amended): after the full token scan the formatter fails with the
unterminated-group error exactly when the paren depth is positive; a final
depth of zero or below (the source's `parenCount <= 0` invariant) returns a
path, so an unbalanced close paren that drives the depth negative does not
fail. -/
theorem format_end_check (tokens : List String) (params : Params) (fuel : Nat)
    (st : FmtState) (hend : tokens.length ≤ st.i) :
    formatLoop tokens params (fuel + 1) st = some (.error .missingEndParen) ↔
      0 < st.parenCount := by
  have hn : ¬ st.i < tokens.length := Nat.not_lt.mpr hend
  by_cases hpc : 0 < st.parenCount
  · simp [formatLoop, hn, hpc]
  · simp [formatLoop, hn, hpc]

/-- Witness for C8's theorem at a concrete input: an empty token list with
depth `1` left open fails with the unterminated-group error. -/
theorem format_end_check_witness :
    formatLoop [] noParams 1 ⟨0, 1, "", 0, [""]⟩ = some (.error .missingEndParen) :=
  (format_end_check [] noParams 0 ⟨0, 1, "", 0, [""]⟩ (by decide)).mpr (by decide)

/-- Counterexample to C8 as stated: a lone close-paren token drives the
depth to `-1` — not back to `0` after the scan — yet `formatPattern`
returns a path instead of failing. -/
theorem format_negative_depth_counterexample :
    formatStep [")"] noParams ⟨0, 0, "", 0, []⟩ = .ok ⟨1, -1, "", 0, []⟩ ∧
    formatTokens [")"] noParams = some (.ok "") := by
  constructor
  · rfl
  · rfl

/-! ## The named-param branch of the formatter -/

/-- The formatter's handling of a named-param token (lines 148-185),
factored out: the branch taken is decided by `params[name]` and the paren
depth. -/
theorem formatStep_colon (tokens : List String) (params : Params) (st : FmtState)
    (nc : List Char) (htok : tokens.getD st.i "" = ⟨':' :: nc⟩) :
    formatStep tokens params st =
      match params.named ⟨nc⟩ with
      | none =>
        if 0 < st.parenCount then
          match (tokens.drop (tokens.findIdx (fun s => s == (⟨':' :: nc⟩ : String)))).findIdx?
              (fun s => s == ")") with
          | some k =>
            if 0 < k then
              .ok { st with i := tokens.findIdx (fun s => s == (⟨':' :: nc⟩ : String)) + k,
                            parenHistory := jsSetAt st.parenHistory (st.parenCount - 1) "" }
            else .error (.missingEndParenSeg (String.join
              (tokens.drop (tokens.findIdx (fun s => s == (⟨':' :: nc⟩ : String))))))
          | none => .error (.missingEndParenSeg (String.join
              (tokens.drop (tokens.findIdx (fun s => s == (⟨':' :: nc⟩ : String))))))
        else .error (.missingParam ⟨nc⟩)
      | some v =>
        if st.parenCount ≠ 0 then
          .ok { st with i := st.i + 1,
                        parenHistory := jsAppendAt st.parenHistory (st.parenCount - 1)
                          (encodeURIComponentM v) }
        else .ok { st with i := st.i + 1, pathname := st.pathname ++ encodeURIComponentM v } := by
  have h1 : (':' :: nc : List Char) ≠ ['*'] := by
    intro h; injection h with hh _; exact absurd hh (by decide)
  have h2 : (':' :: nc : List Char) ≠ ['*', '*'] := by
    intro h; injection h with hh _; exact absurd hh (by decide)
  have h3 : (':' :: nc : List Char) ≠ ['('] := by
    intro h; injection h with hh _; exact absurd hh (by decide)
  have h4 : (':' :: nc : List Char) ≠ [')'] := by
    intro h; injection h with hh _; exact absurd hh (by decide)
  have h5 : (':' :: nc : List Char) ≠ ['\\', '('] := by
    intro h; injection h with hh _; exact absurd hh (by decide)
  have h6 : (':' :: nc : List Char) ≠ ['\\', ')'] := by
    intro h; injection h with hh _; exact absurd hh (by decide)
  unfold formatStep
  rw [htok]
  simp only [not_or.mpr ⟨h1, h2⟩, if_false, h3, h4, h5, h6, if_neg]
  rfl

/-! ## C10: the empty string counts as present -/

/-- C10: a named parameter supplied as the empty string is present — the
formatter neither fails nor elides the enclosing group; it appends the
empty escape of the value to the current buffer, leaving every buffer and
the output unchanged, and moves to the next token. -/
theorem format_empty_param_present (tokens : List String) (params : Params)
    (st : FmtState) (nc : List Char)
    (htok : tokens.getD st.i "" = ⟨':' :: nc⟩)
    (hval : params.named ⟨nc⟩ = some "") :
    formatStep tokens params st = .ok { st with i := st.i + 1 } := by
  rw [formatStep_colon tokens params st nc htok, hval]
  have henc : encodeURIComponentM "" = "" := rfl
  by_cases hpc : st.parenCount = 0
  · simp [hpc, henc, str_append_empty]
  · simp [hpc, henc, jsAppendAt_empty_val]

/-- Witness for C10's theorem: formatting `:a` with `a` bound to the empty
string just advances past the token. -/
theorem format_empty_param_present_witness :
    formatStep ["/u/", ":a"] emptyAParams ⟨1, 0, "/u/", 0, []⟩ = .ok ⟨2, 0, "/u/", 0, []⟩ :=
  format_empty_param_present ["/u/", ":a"] emptyAParams ⟨1, 0, "/u/", 0, []⟩ ['a']
    (by rfl) (by rfl)

/-! ## C4: the segment-boundary rule of the matcher -/

/-- C4: when the automaton matches a proper prefix of the pathname (some
nonempty remainder `t` is left) and the matched prefix does not end at a
path separator, `matchPattern` returns absent. -/
theorem match_boundary_reject (exec : String → Option (String × List (Option String)))
    (names : List String) (x m : String) (caps : List (Option String)) (t : List Char)
    (hexec : exec x = some (m, caps)) (hpre : m.data ++ t = x.data) (hne : t ≠ [])
    (hslash : endsWithSlash m = false) :
    matchPatternCore exec names x = none := by
  have hdrop : strDrop x m.length = ⟨t⟩ := by
    unfold strDrop
    have : x.data = m.data ++ t := hpre.symm
    rw [this]
    show String.mk ((m.data ++ t).drop m.data.length) = ⟨t⟩
    rw [List.drop_left]
  unfold matchPatternCore
  rw [hexec]
  simp only [hdrop, hslash]
  rw [if_pos (strmk_ne_empty t hne)]
  simp

/-- Witness for C4's theorem, the spec's own example: `/users` against
`/users42` matches the proper prefix `/users`, which ends in `s`, so the
match is rejected. -/
theorem match_boundary_reject_witness :
    matchPatternCore (litExec "/users") [] "/users42" = none :=
  match_boundary_reject (litExec "/users") [] "/users42" "/users" [] ['4', '2']
    (by decide) (by decide) (by decide) (by decide)

/-! ## C5: shape of `remainingPathname` -/

/-- C5: whenever the matcher returns a result, its `remainingPathname` is
either empty or carries a leading path separator. -/
theorem match_remaining_shape (exec : String → Option (String × List (Option String)))
    (names : List String) (x : String) (r : MatchResult)
    (h : matchPatternCore exec names x = some r) :
    r.remainingPathname = "" ∨ ∃ t, r.remainingPathname = "/" ++ t := by
  unfold matchPatternCore at h
  cases hex : exec x with
  | none => rw [hex] at h; cases h
  | some mc =>
    obtain ⟨m, caps⟩ := mc
    rw [hex] at h
    simp only at h
    by_cases hr : strDrop x m.length ≠ ""
    · rw [if_pos hr] at h
      by_cases hs : endsWithSlash m = false
      · rw [if_pos hs] at h; cases h
      · rw [if_neg hs] at h
        injection h with h
        right
        exact ⟨strDrop x m.length, by rw [← h]⟩
    · rw [if_neg hr] at h
      injection h with h
      left
      rw [← h]
      exact Classical.not_not.mp hr

/-- Witness for C5's theorem: a prefix match of `/users/` against
`/users/edit` leaves the remainder `/edit`, which starts with the
separator. -/
theorem match_remaining_shape_witness :
    ("/edit" : String) = "" ∨ ∃ t, ("/edit" : String) = "/" ++ t := by
  have h := match_remaining_shape (litExec "/users/") [] "/users/edit"
    ⟨"/edit", [], []⟩ (by decide)
  simpa using h

/-! ## C6: decoding of captures -/

/-- C6 (amended): the matcher's `paramValues` are the captures passed
through `decodeCapture` — an absent capture stays absent, an empty capture
is returned as the empty string (not as absent), and a nonempty capture is
percent-decoded. -/
theorem match_decode_captures (exec : String → Option (String × List (Option String)))
    (names : List String) (x m : String) (caps : List (Option String)) (r : MatchResult)
    (hexec : exec x = some (m, caps)) (h : matchPatternCore exec names x = some r) :
    r.paramValues = caps.map decodeCapture ∧
    decodeCapture none = none ∧ decodeCapture (some "") = some "" ∧
    ∀ s : String, s ≠ "" → decodeCapture (some s) = some (decodeURIComponentM s) := by
  refine ⟨?_, rfl, rfl, ?_⟩
  · unfold matchPatternCore at h
    rw [hexec] at h
    simp only at h
    by_cases hr : strDrop x m.length ≠ ""
    · rw [if_pos hr] at h
      by_cases hs : endsWithSlash m = false
      · rw [if_pos hs] at h; cases h
      · rw [if_neg hs] at h; injection h with h; rw [← h]
    · rw [if_neg hr] at h; injection h with h; rw [← h]
  · intro s hs
    simp [decodeCapture, hs]

/-- Witness for C6's theorem: the splat automaton for `/a/**` on `/a/xy`
captures `xy`, and the result decodes it. -/
theorem match_decode_captures_witness :
    (MatchResult.mk "" ["splat"] [some "xy"]).paramValues = [some "xy"].map decodeCapture ∧
    decodeCapture none = none ∧ decodeCapture (some "") = some "" ∧
    ∀ s : String, s ≠ "" → decodeCapture (some s) = some (decodeURIComponentM s) :=
  match_decode_captures splatExecA ["splat"] "/a/xy" "/a/xy" [some "xy"]
    ⟨"", ["splat"], [some "xy"]⟩ (by decide) (by decide)

/-- Counterexample to C6 as stated: on `/a/` the splat captures the empty
string, and the matcher returns it as the empty string, not as absent. -/
theorem match_empty_capture_counterexample :
    matchPatternCore splatExecA ["splat"] "/a/" = some ⟨"", ["splat"], [some ""]⟩ ∧
    (some "" : Option String) ≠ none := by
  constructor
  · decide
  · decide

/-! ## C2: the elision jump -/

/-- C2 (amended): when a named-param token is reached whose value is
absent at positive depth, the current group's buffer is cleared and the
scan jumps to the first `)` token at or after the first occurrence of the
current token string in the token list (the source's
`tokens.indexOf(token)` followed by a depth-blind scan for `)`), resuming
processing at that `)`; nested group opens in between are not tracked. -/
theorem format_elision_jump (tokens : List String) (params : Params) (st : FmtState)
    (nc : List Char) (k : Nat)
    (htok : tokens.getD st.i "" = ⟨':' :: nc⟩)
    (hval : params.named ⟨nc⟩ = none)
    (hpc : 0 < st.parenCount)
    (hfind : (tokens.drop (tokens.findIdx (fun s => s == (⟨':' :: nc⟩ : String)))).findIdx?
      (fun s => s == ")") = some k)
    (hk : 0 < k) :
    formatStep tokens params st =
      .ok { st with i := tokens.findIdx (fun s => s == (⟨':' :: nc⟩ : String)) + k,
                    parenHistory := jsSetAt st.parenHistory (st.parenCount - 1) "" } := by
  simp only [formatStep_colon tokens params st nc htok, hval, if_pos hpc, hfind, if_pos hk]

/-- Witness for C2's theorem: eliding `:a` inside a simple group jumps to
its close paren with the group's buffer cleared. -/
theorem format_elision_jump_witness :
    formatStep ["(", ":a", ")"] noParams ⟨1, 1, "", 0, [""]⟩ = .ok ⟨2, 1, "", 0, [""]⟩ :=
  (format_elision_jump ["(", ":a", ")"] noParams ⟨1, 1, "", 0, [""]⟩ ['a'] 1
    (by rfl) (by rfl) (by decide) (by rfl) (by decide)).trans (by decide)

/-- Counterexample to C2 as stated: in `(:a(x)y)` with `a` absent, the
claimed jump to the matching close paren of the group's nesting level (the
outer `)`) would skip the intervening `y` and produce the empty path, but
the code jumps to the first `)` — the inner one — and then processes `y`
at depth zero, producing `y`. -/
theorem format_elision_nested_counterexample :
    formatTokens ["(", ":a", "(", "x", ")", "y", ")"] noParams = some (.ok "y") ∧
    ("y" : String) ≠ "" := by
  constructor
  · decide
  · decide

/-! ## C3: splat values and the output buffer -/

/-- C3 (amended): a present splat value is URI-escaped and appended to the
output `pathname` regardless of the paren depth (never to the
`parenHistory` buffer); an absent splat value at positive depth is dropped
silently, only advancing the consumed splat index. -/
theorem format_splat_append (tokens : List String) (params : Params) (st : FmtState)
    (vo : Option String) (j : Nat)
    (htok : tokens.getD st.i "" = "*" ∨ tokens.getD st.i "" = "**")
    (hres : resolveSplat params.splat st.splatIndex = (vo, j)) :
    (∀ v, vo = some v → formatStep tokens params st =
      .ok { st with i := st.i + 1, splatIndex := j,
                    pathname := st.pathname ++ encodeURIM v }) ∧
    (vo = none → 0 < st.parenCount → formatStep tokens params st =
      .ok { st with i := st.i + 1, splatIndex := j }) := by
  have hd : (tokens.getD st.i "").data = ['*'] ∨ (tokens.getD st.i "").data = ['*', '*'] := by
    rcases htok with h | h
    · left; rw [h]
    · right; rw [h]
  constructor
  · intro v hv
    rw [hv] at hres
    simp only [formatStep, if_pos hd, hres]
  · intro hv hpc
    rw [hv] at hres
    simp only [formatStep, if_pos hd, hres, if_pos hpc]

/-- Witness for C3's theorem: inside an open group, a present splat value
goes to the output pathname (not the group buffer), and an absent one is
dropped. -/
theorem format_splat_append_witness :
    formatStep ["(", "/a", "*", ")"] scalarSplatParams ⟨2, 1, "", 0, ["/a"]⟩ =
      .ok ⟨3, 1, "x", 0, ["/a"]⟩ ∧
    formatStep ["(", "*", ")"] noParams ⟨1, 1, "", 0, [""]⟩ = .ok ⟨2, 1, "", 0, [""]⟩ := by
  constructor
  · exact ((format_splat_append ["(", "/a", "*", ")"] scalarSplatParams
      ⟨2, 1, "", 0, ["/a"]⟩ (some "x") 0 (Or.inl rfl) rfl).1 "x" rfl).trans (by decide)
  · exact ((format_splat_append ["(", "*", ")"] noParams
      ⟨1, 1, "", 0, [""]⟩ none 0 (Or.inl rfl) rfl).2 rfl (by decide)).trans (by decide)

/-- Counterexample to C3 as stated: formatting `(/a*)` with splat `x`
appends `x` to the output while `/a` is still buffered in the open group,
yielding `x/a` instead of the `/ax` the claimed append-to-group-buffer
behaviour would give. -/
theorem format_splat_in_group_counterexample :
    formatTokens ["(", "/a", "*", ")"] scalarSplatParams = some (.ok "x/a") ∧
    ("x/a" : String) ≠ "/ax" := by
  constructor
  · decide
  · decide

/-! ## The formatter on paren-free token lists -/

/-- On a token list without group-boundary tokens the formatter loop
computes exactly the left-to-right rendering `renderSimple`, starting from
any position at depth zero with no open buffers. -/
theorem formatLoop_simple (params : Params) (tokens : List String) :
    ∀ fuel st, st.parenCount = 0 → st.parenHistory = [] →
      (∀ t ∈ tokens.drop st.i, t.data ≠ ['('] ∧ t.data ≠ [')']) →
      tokens.length - st.i < fuel →
      formatLoop tokens params fuel st =
        some (match renderSimple params (tokens.drop st.i) st.splatIndex with
              | .ok out => .ok (collapseSlashes (st.pathname ++ out))
              | .error e => .error e) := by
  intro fuel
  induction fuel with
  | zero => intro st _ _ _ hf; exact absurd hf (Nat.not_lt_zero _)
  | succ fuel ih =>
    intro st hpc hhist hnp hf
    by_cases hi : st.i < tokens.length
    case neg =>
      have hdrop : tokens.drop st.i = [] := List.drop_eq_nil_of_le (Nat.le_of_not_lt hi)
      have hpc' : ¬ (0 : Int) < st.parenCount := by rw [hpc]; decide
      simp only [formatLoop, if_neg hi, if_neg hpc', hdrop, renderSimple, str_append_empty]
    case pos =>
      have hdrop : tokens.drop st.i = tokens[st.i] :: tokens.drop (st.i + 1) :=
        List.drop_eq_getElem_cons hi
      have htok : tokens.getD st.i "" = tokens[st.i] := getD_of_drop_cons tokens st.i _ _ hdrop
      have hnp1 : tokens[st.i].data ≠ ['('] ∧ tokens[st.i].data ≠ [')'] :=
        hnp tokens[st.i] (hdrop ▸ List.mem_cons_self _ _)
      have hnp' : ∀ t ∈ tokens.drop (st.i + 1), t.data ≠ ['('] ∧ t.data ≠ [')'] := by
        intro t ht
        exact hnp t (hdrop ▸ List.mem_cons_of_mem _ ht)
      have hf' : tokens.length - (st.i + 1) < fuel := by omega
      have hpcn : ¬ st.parenCount ≠ 0 := by rw [hpc]; decide
      have hpcl : ¬ (0 : Int) < st.parenCount := by rw [hpc]; decide
      have key : ∀ (piece : String) (k' : Nat),
          formatStep tokens params st =
            .ok { st with i := st.i + 1, splatIndex := k',
                          pathname := st.pathname ++ piece } →
          renderSimple params (tokens.drop st.i) st.splatIndex =
            (renderSimple params (tokens.drop (st.i + 1)) k').map (fun r => piece ++ r) →
          formatLoop tokens params (fuel + 1) st =
            some (match renderSimple params (tokens.drop st.i) st.splatIndex with
                  | .ok out => .ok (collapseSlashes (st.pathname ++ out))
                  | .error e => .error e) := by
        intro piece k' hstep hrender
        have hrec := ih { st with i := st.i + 1, splatIndex := k',
                                  pathname := st.pathname ++ piece } hpc hhist hnp' hf'
        simp only [formatLoop, if_pos hi, hstep, hrec, hrender]
        cases hr : renderSimple params (tokens.drop (st.i + 1)) k' with
        | ok out => simp [Except.map, ← String.append_assoc]
        | error e => simp [Except.map]
      have herrkey : ∀ e : FormatError,
          formatStep tokens params st = .error e →
          renderSimple params (tokens.drop st.i) st.splatIndex = .error e →
          formatLoop tokens params (fuel + 1) st =
            some (match renderSimple params (tokens.drop st.i) st.splatIndex with
                  | .ok out => .ok (collapseSlashes (st.pathname ++ out))
                  | .error e => .error e) := by
        intro e hstep hrender
        simp only [formatLoop, if_pos hi, hstep, hrender]
      by_cases h1 : tokens[st.i].data = ['*'] ∨ tokens[st.i].data = ['*', '*']
      · -- splat token
        rcases hres : resolveSplat params.splat st.splatIndex with ⟨vo, j⟩
        cases vo with
        | some v =>
          refine key (encodeURIM v) j ?_ ?_
          · simp only [formatStep, htok, if_pos h1, hres]
          · rw [hdrop]
            simp only [renderSimple, if_pos h1, hres]
        | none =>
          refine herrkey (.missingSplat j) ?_ ?_
          · simp only [formatStep, htok, if_pos h1, hres, if_neg hpcl]
          · rw [hdrop]
            simp only [renderSimple, if_pos h1, hres]
      · by_cases h4 : tokens[st.i].data = ['\\', '(']
        · refine key "(" st.splatIndex ?_ ?_
          · simp only [formatStep, htok, if_neg h1, if_neg hnp1.1, if_neg hnp1.2, if_pos h4]
          · rw [hdrop]
            simp only [renderSimple, if_neg h1, if_neg hnp1.1, if_neg hnp1.2, if_pos h4]
        · by_cases h5 : tokens[st.i].data = ['\\', ')']
          · refine key ")" st.splatIndex ?_ ?_
            · simp only [formatStep, htok, if_neg h1, if_neg hnp1.1, if_neg hnp1.2,
                if_neg h4, if_pos h5]
            · rw [hdrop]
              simp only [renderSimple, if_neg h1, if_neg hnp1.1, if_neg hnp1.2,
                if_neg h4, if_pos h5]
          · by_cases h6 : tokens[st.i].data.head? = some ':'
            · -- named param
              cases hv : params.named ⟨tokens[st.i].data.tail⟩ with
              | some v =>
                refine key (encodeURIComponentM v) st.splatIndex ?_ ?_
                · simp only [formatStep, htok, if_neg h1, if_neg hnp1.1, if_neg hnp1.2,
                    if_neg h4, if_neg h5, if_pos h6, hv, if_neg hpcn]
                · rw [hdrop]
                  simp only [renderSimple, if_neg h1, if_neg hnp1.1, if_neg hnp1.2,
                    if_neg h4, if_neg h5, if_pos h6, hv]
              | none =>
                refine herrkey (.missingParam ⟨tokens[st.i].data.tail⟩) ?_ ?_
                · simp only [formatStep, htok, if_neg h1, if_neg hnp1.1, if_neg hnp1.2,
                    if_neg h4, if_neg h5, if_pos h6, hv, if_neg hpcl]
                · rw [hdrop]
                  simp only [renderSimple, if_neg h1, if_neg hnp1.1, if_neg hnp1.2,
                    if_neg h4, if_neg h5, if_pos h6, hv]
            · -- literal token
              refine key tokens[st.i] st.splatIndex ?_ ?_
              · simp only [formatStep, htok, if_neg h1, if_neg hnp1.1, if_neg hnp1.2,
                  if_neg h4, if_neg h5, if_neg h6, if_neg hpcn]
              · rw [hdrop]
                simp only [renderSimple, if_neg h1, if_neg hnp1.1, if_neg hnp1.2,
                  if_neg h4, if_neg h5, if_neg h6]

/-! ## C7: splat resolution order and the missing-splat error -/

/-- C7: on any paren-free token list the formatter computes the
left-to-right rendering: every splat occurrence resolves through
`resolveSplat`, which consumes the next element of a splat sequence in
order (advancing the index), reuses a scalar splat for every occurrence,
and yields absence otherwise; a value absent at depth zero aborts the
format with `missingSplat` carrying the splat index. -/
theorem format_splat_resolution (tokens : List String) (params : Params)
    (hnp : ∀ t ∈ tokens, t.data ≠ ['('] ∧ t.data ≠ [')']) :
    formatTokens tokens params =
      some (match renderSimple params tokens 0 with
            | .ok out => .ok (collapseSlashes out)
            | .error e => .error e) ∧
    (∀ xs k, resolveSplat (some (.arr xs)) k = (xs.get? k, k + 1)) ∧
    (∀ s k, resolveSplat (some (.str s)) k = (some s, k)) ∧
    (∀ k, resolveSplat none k = (none, k)) := by
  refine ⟨?_, fun xs k => rfl, fun s k => rfl, fun k => rfl⟩
  have h := formatLoop_simple params tokens
    (tokens.length * tokens.length + tokens.length + 1) ⟨0, 0, "", 0, []⟩ rfl rfl
    (by simpa using hnp)
    (by
      have : tokens.length ≤ tokens.length * tokens.length + tokens.length :=
        Nat.le_add_left _ _
      omega)
  rw [formatTokens, h]
  simp only [List.drop_zero]
  cases hr : renderSimple params tokens 0 with
  | ok out => simp [str_empty_append]
  | error e => simp

/-- Witness for C7's theorem: a splat sequence is consumed left to right
(`/f/a/b`), a scalar is reused for each occurrence (`s/s`), and a missing
splat at depth zero fails with its index. -/
theorem format_splat_resolution_witness :
    formatTokens ["/f/", "*", "/", "*"] arrSplatParams = some (.ok "/f/a/b") ∧
    formatTokens ["*", "/", "*"] scalarSplatParams = some (.ok "x/x") ∧
    formatTokens ["/x/", "*"] noParams = some (.error (.missingSplat 0)) := by
  refine ⟨?_, ?_, ?_⟩
  · exact (format_splat_resolution ["/f/", "*", "/", "*"] arrSplatParams
      (by decide)).1.trans (by decide)
  · exact (format_splat_resolution ["*", "/", "*"] scalarSplatParams
      (by decide)).1.trans (by decide)
  · exact (format_splat_resolution ["/x/", "*"] noParams (by decide)).1.trans (by decide)

/-! ## Lookup lemmas for the `getParams` assignment list -/

theorem paramNamesOf_cons (t : String) (ts : List String) :
    paramNamesOf (t :: ts) =
      if t.data.head? = some ':' then (⟨t.data.tail⟩ : String) :: paramNamesOf ts
      else paramNamesOf ts := by
  by_cases h : t.data.head? = some ':'
  · simp [paramNamesOf, List.filterMap_cons, h]
  · simp [paramNamesOf, List.filterMap_cons, h]

theorem zipParams_keys (ns : List String) (vs : List (Option String)) :
    (zipParams ns vs).map Prod.fst = ns := by
  induction ns generalizing vs with
  | nil => rfl
  | cons n ns ih => simp [zipParams, ih]

theorem lookupParams_nodup (l : List (String × Option String))
    (hnd : (l.map Prod.fst).Nodup) : ∀ pr ∈ l, lookupParams l pr.1 = pr.2 := by
  induction l with
  | nil => intro pr h; cases h
  | cons hd tl ih =>
    intro pr hpr
    have hnd' : (tl.map Prod.fst).Nodup := (List.nodup_cons.mp (by simpa using hnd)).2
    have hhd : hd.1 ∉ tl.map Prod.fst := (List.nodup_cons.mp (by simpa using hnd)).1
    rcases List.mem_cons.mp hpr with heq | hmem
    · subst heq
      unfold lookupParams
      rw [List.reverse_cons, List.find?_append]
      have hnone : tl.reverse.find? (fun q => q.1 == pr.1) = none := by
        apply List.find?_eq_none.mpr
        intro q hq
        have hqmem : q.1 ∈ tl.map Prod.fst :=
          List.mem_map_of_mem Prod.fst (List.mem_reverse.mp hq)
        simp only [Bool.not_eq_true, beq_eq_false_iff_ne, ne_eq]
        intro hb
        exact hhd (hb ▸ hqmem)
      rw [hnone]
      simp [List.find?]
    · have hres := ih hnd' pr hmem
      unfold lookupParams at hres ⊢
      rw [List.reverse_cons, List.find?_append]
      cases hfind : tl.reverse.find? (fun q => q.1 == pr.1) with
      | some q =>
        rw [hfind] at hres
        simpa using hres
      | none =>
        rw [hfind] at hres
        have hne : (hd.1 == pr.1) = false := by
          apply beq_eq_false_iff_ne.mpr
          intro hb
          exact hhd (hb ▸ List.mem_map_of_mem Prod.fst hmem)
        simp only [hfind, Option.none_or]
        simp only [List.find?, hne]
        simpa using hres

theorem segMatch_pcPairs (f : Option String → Option String) :
    ∀ toks cs caps, segMatchL toks cs = some caps →
      zipParams (paramNamesOf toks) (caps.map f) = pcPairs toks (caps.map f) := by
  intro toks
  induction toks with
  | nil =>
    intro cs caps h
    unfold segMatchL at h
    split_ifs at h with hcs
    injection h with h
    rw [← h]
    rfl
  | cons t ts ih =>
    intro cs caps h
    unfold segMatchL at h
    by_cases hcolon : t.data.head? = some ':'
    · rw [if_pos hcolon] at h
      simp only at h
      by_cases hcap : cs.takeWhile (fun c => c ≠ '/') = []
      · rw [if_pos hcap] at h; cases h
      · rw [if_neg hcap] at h
        cases hseg : segMatchL ts (cs.dropWhile (fun c => c ≠ '/')) with
        | none => rw [hseg] at h; cases h
        | some r =>
          rw [hseg] at h
          simp only [Option.map_some'] at h
          injection h with h
          rw [← h]
          rw [pcPairs.eq_def]
          simp only [List.map_cons, if_pos hcolon]
          rw [paramNamesOf_cons, if_pos hcolon, zipParams]
          simp only [List.head?_cons, List.tail_cons, Option.some_bind, id_eq]
          rw [ih _ _ hseg]
    · rw [if_neg hcolon] at h
      by_cases hpre : t.data.isPrefixOf cs
      · rw [if_pos hpre] at h
        rw [pcPairs.eq_def]
        simp only [if_neg hcolon]
        rw [paramNamesOf_cons, if_neg hcolon]
        exact ih _ _ h
      · rw [if_neg hpre] at h; cases h

/-! ## Round-trip rendering lemma -/

theorem render_of_segMatch (params : Params) :
    ∀ toks cs caps,
      (∀ t ∈ toks, simpleTok t) →
      segMatchL toks cs = some caps →
      (∀ c ∈ caps, c.map (fun s => encodeURIComponentM (decodeURIComponentM s)) = c) →
      (∀ pr ∈ pcPairs toks (caps.map decodeCapture), params.named pr.1 = pr.2) →
      renderSimple params toks 0 = .ok ⟨cs⟩ := by
  intro toks
  induction toks with
  | nil =>
    intro cs caps _ h _ _
    unfold segMatchL at h
    split_ifs at h with hcs
    rw [hcs]
    rfl
  | cons t ts ih =>
    intro cs caps hwf h hcanon hlook
    have hwt := hwf t (List.mem_cons_self _ _)
    have hwts : ∀ u ∈ ts, simpleTok u := fun u hu => hwf u (List.mem_cons_of_mem _ hu)
    unfold segMatchL at h
    by_cases hcolon : t.data.head? = some ':'
    · rw [if_pos hcolon] at h
      simp only at h
      by_cases hcap : cs.takeWhile (fun c => c ≠ '/') = []
      · rw [if_pos hcap] at h; cases h
      · rw [if_neg hcap] at h
        cases hseg : segMatchL ts (cs.dropWhile (fun c => c ≠ '/')) with
        | none => rw [hseg] at h; cases h
        | some r =>
          rw [hseg] at h
          simp only [Option.map_some'] at h
          injection h with h
          have hcaps : caps = some (⟨cs.takeWhile (fun c => c ≠ '/')⟩ : String) :: r := h.symm
          subst hcaps
          have hpcs : pcPairs (t :: ts)
              ((some (⟨cs.takeWhile (fun c => c ≠ '/')⟩ : String) :: r).map decodeCapture) =
              ((⟨t.data.tail⟩ : String),
                decodeCapture (some ⟨cs.takeWhile (fun c => c ≠ '/')⟩)) ::
                pcPairs ts (r.map decodeCapture) := by
            rw [pcPairs.eq_def]
            simp only [List.map_cons, if_pos hcolon]
          have hdec : decodeCapture (some (⟨cs.takeWhile (fun c => c ≠ '/')⟩ : String)) =
              some (decodeURIComponentM ⟨cs.takeWhile (fun c => c ≠ '/')⟩) := by
            have hne : (⟨cs.takeWhile (fun c => c ≠ '/')⟩ : String) ≠ "" :=
              strmk_ne_empty _ hcap
            simp only [decodeCapture, if_neg hne]
          have hname : params.named ⟨t.data.tail⟩ =
              some (decodeURIComponentM ⟨cs.takeWhile (fun c => c ≠ '/')⟩) := by
            have := hlook (⟨t.data.tail⟩,
              decodeCapture (some ⟨cs.takeWhile (fun c => c ≠ '/')⟩))
              (by rw [hpcs]; exact List.mem_cons_self _ _)
            rw [this, hdec]
          have henc : encodeURIComponentM
              (decodeURIComponentM ⟨cs.takeWhile (fun c => c ≠ '/')⟩) =
              (⟨cs.takeWhile (fun c => c ≠ '/')⟩ : String) := by
            have := hcanon (some ⟨cs.takeWhile (fun c => c ≠ '/')⟩)
              (List.mem_cons_self _ _)
            simpa using this
          have hlook' : ∀ pr ∈ pcPairs ts (r.map decodeCapture),
              params.named pr.1 = pr.2 := by
            intro pr hpr
            exact hlook pr (by rw [hpcs]; exact List.mem_cons_of_mem _ hpr)
          have hcanon' : ∀ c ∈ r,
              c.map (fun s => encodeURIComponentM (decodeURIComponentM s)) = c :=
            fun c hc => hcanon c (List.mem_cons_of_mem _ hc)
          have hrec := ih (cs.dropWhile (fun c => c ≠ '/')) r hwts hseg hcanon' hlook'
          simp only [renderSimple, if_neg (not_or.mpr ⟨hwt.1, hwt.2.1⟩), if_neg hwt.2.2.1,
            if_neg hwt.2.2.2.1, if_neg hwt.2.2.2.2.1, if_neg hwt.2.2.2.2.2, if_pos hcolon,
            hname, hrec, Except.map, henc]
          rw [← strmk_append]
          show Except.ok (ε := FormatError)
            (⟨cs.takeWhile (fun c => c ≠ '/') ++ cs.dropWhile (fun c => c ≠ '/')⟩ : String) =
            Except.ok ⟨cs⟩
          rw [List.takeWhile_append_dropWhile]
    · rw [if_neg hcolon] at h
      by_cases hpre : t.data.isPrefixOf cs
      · rw [if_pos hpre] at h
        obtain ⟨u, hu⟩ := List.isPrefixOf_iff_prefix.mp hpre
        have hdropu : cs.drop t.data.length = u := by
          rw [← hu]; exact List.drop_left _ _
        rw [hdropu] at h
        have hpcs : pcPairs (t :: ts) (caps.map decodeCapture) =
            pcPairs ts (caps.map decodeCapture) := by
          rw [pcPairs.eq_def]
          simp only [if_neg hcolon]
        have hlook' : ∀ pr ∈ pcPairs ts (caps.map decodeCapture),
            params.named pr.1 = pr.2 := by
          intro pr hpr
          exact hlook pr (by rw [hpcs]; exact hpr)
        have hrec := ih u caps hwts h hcanon hlook'
        simp only [renderSimple, if_neg (not_or.mpr ⟨hwt.1, hwt.2.1⟩), if_neg hwt.2.2.1,
          if_neg hwt.2.2.2.1, if_neg hwt.2.2.2.2.1, if_neg hwt.2.2.2.2.2, if_neg hcolon,
          hrec, Except.map]
        show Except.ok (ε := FormatError) (t ++ (⟨u⟩ : String)) = Except.ok ⟨cs⟩
        rw [← hu, strmk_append]
      · rw [if_neg hpre] at h; cases h

/-! ## C1: the round-trip law -/

/-- C1 (amended): for a pattern whose tokens are literals and named params
with distinct names (a fully-specified, non-optional pattern), if the
automaton matches the whole pathname and every captured value re-encodes
to itself after decoding (no character of a captured segment is escaped
differently by `encodeURIComponent` than it appears in the pathname), then
formatting the matched params reproduces the pathname modulo separator
collapsing. -/
theorem roundtrip_simple_patterns (toks : List String) (x : String)
    (caps : List (Option String)) (prms : List (String × Option String))
    (hwf : ∀ t ∈ toks, simpleTok t)
    (hnodup : (paramNamesOf toks).Nodup)
    (hmatch : segExec toks x = some (x, caps))
    (hcanon : ∀ c ∈ caps, c.map (fun s => encodeURIComponentM (decodeURIComponentM s)) = c)
    (hparams : getParamsCore (segExec toks) (paramNamesOf toks) x = some prms) :
    formatTokens toks (paramsOfAssoc prms) = some (.ok (collapseSlashes x)) := by
  have hseg : segMatchL toks x.data = some caps := by
    unfold segExec at hmatch
    cases hs : segMatchL toks x.data with
    | none => rw [hs] at hmatch; cases hmatch
    | some r =>
      rw [hs] at hmatch
      simp only [Option.map_some', Option.some.injEq, Prod.mk.injEq] at hmatch
      rw [hmatch.2]
  have hmp : matchPatternCore (segExec toks) (paramNamesOf toks) x =
      some ⟨"", paramNamesOf toks, caps.map decodeCapture⟩ := by
    unfold matchPatternCore
    rw [hmatch]
    simp only [strDrop_length]
    rw [if_neg (by simp)]
  have hprms : prms = zipParams (paramNamesOf toks) (caps.map decodeCapture) := by
    unfold getParamsCore at hparams
    rw [hmp] at hparams
    simp only [Option.map_some', Option.some.injEq] at hparams
    exact hparams.symm
  have hkeysnd : ((zipParams (paramNamesOf toks) (caps.map decodeCapture)).map
      Prod.fst).Nodup := by
    rw [zipParams_keys]
    exact hnodup
  have hlook : ∀ pr ∈ pcPairs toks (caps.map decodeCapture),
      (paramsOfAssoc prms).named pr.1 = pr.2 := by
    intro pr hpr
    have hz := segMatch_pcPairs decodeCapture toks x.data caps hseg
    have hmem : pr ∈ zipParams (paramNamesOf toks) (caps.map decodeCapture) := by
      rw [hz]; exact hpr
    have := lookupParams_nodup _ hkeysnd pr hmem
    show lookupParams prms pr.1 = pr.2
    rw [hprms]
    exact this
  have hrender := render_of_segMatch (paramsOfAssoc prms) toks x.data caps hwf hseg
    hcanon hlook
  have hnp : ∀ t ∈ toks, t.data ≠ ['('] ∧ t.data ≠ [')'] := by
    intro t ht
    exact ⟨(hwf t ht).2.2.1, (hwf t ht).2.2.2.1⟩
  have h := formatLoop_simple (paramsOfAssoc prms) toks
    (toks.length * toks.length + toks.length + 1) ⟨0, 0, "", 0, []⟩ rfl rfl
    (by simpa using hnp)
    (by
      have : toks.length ≤ toks.length * toks.length + toks.length :=
        Nat.le_add_left _ _
      omega)
  rw [formatTokens, h]
  simp only [List.drop_zero, hrender, str_empty_append]

/-- Witness for C1's theorem: matching `/users/:id` (tokens `/users/` and
`:id`) against `/users/abc` and formatting the extracted params gives back
`/users/abc`. -/
theorem roundtrip_simple_patterns_witness :
    formatTokens ["/users/", ":id"] (paramsOfAssoc [("id", some "abc")]) =
      some (.ok "/users/abc") :=
  (roundtrip_simple_patterns ["/users/", ":id"] "/users/abc" [some "abc"]
    [("id", some "abc")] (by decide) (by decide) (by decide) (by decide)
    (by decide)).trans (by decide)

/-- Counterexample to C1 as stated: `/users/:id` fully matches
`/users/a+b`, but formatting the extracted params yields `/users/a%2Bb`
(the decoded `a+b` re-encodes to `a%2Bb`), which differs from the original
pathname beyond separator collapsing. -/
theorem roundtrip_counterexample :
    matchPatternCore (segExec ["/users/", ":id"]) ["id"] "/users/a+b" =
      some ⟨"", ["id"], [some "a+b"]⟩ ∧
    getParamsCore (segExec ["/users/", ":id"]) ["id"] "/users/a+b" =
      some [("id", some "a+b")] ∧
    formatTokens ["/users/", ":id"] (paramsOfAssoc [("id", some "a+b")]) =
      some (.ok "/users/a%2Bb") ∧
    collapseSlashes "/users/a+b" = "/users/a+b" ∧
    ("/users/a%2Bb" : String) ≠ "/users/a+b" := by
  refine ⟨?_, ?_, ?_, ?_, ?_⟩
  · decide
  · decide
  · decide
  · decide
  · decide

end PatternUtils
